import Mathlib

/-!
Verification of the incremental beer-discovery pipeline (finder/__main__.py).

The Python source is shallowly embedded:
* `Beer` mirrors the `Beer` TypedDict (name, style, brewery, brewery_id).
* The sent-beer ledger `Dict[str, Set[str]]` is an association list with
  unique keys whose values are duplicate-free lists standing for sets.
* File and network effects are explicit parameters: the backing store is an
  `Option Store` (`none` = `FileNotFoundError`), the page fetch is a
  function `String → Option Page` (`none` = a fetch/driver exception), and
  the save is a function `Ledger → Except String Unit` (`Except.error` = an
  exception raised while writing).
* Python exceptions inside the embedded code are `Option`/`Except` failures.
-/

namespace BeerFinder

/-- The `Beer` TypedDict of finder/__main__.py (lines 29-34). -/
structure Beer where
  name : String
  style : String
  brewery : String
  brewery_id : String
deriving DecidableEq, Repr

/-- Python `str.lower()`, modelled characterwise with `Char.toLower`. -/
def pyLower (s : String) : String :=
  String.mk (s.data.map Char.toLower)

/-- Python `needle in hay` on strings: substring containment. -/
def strContains (hay needle : String) : Bool :=
  decide (needle.data <:+: hay.data)

/-- `Dict[str, Set[str]]`: association list, unique keys, values are
duplicate-free lists read as sets. -/
abbrev Ledger := List (String × List String)

/-- The JSON backing store `sent_beers.json`: an object mapping each brewery
id to an array of beer names. -/
abbrev Store := List (String × List String)

/-- Python `d.get(key, set())` / JSON-object lookup: value of the first
entry with the given key, defaulting to the empty set. -/
def ledgerGet : Ledger → String → List String
  | [], _ => []
  | (k, v) :: rest, key => if k = key then v else ledgerGet rest key

/-- Python `set.add`: a no-op when the name is already present. -/
def insertName (s : List String) (n : String) : List String :=
  if n ∈ s then s else s ++ [n]

/-- Lines 203-206 of finder/__main__.py: create the brewery's entry when
absent, then `set.update` it with the given names. -/
def ledgerUpdate : Ledger → String → List String → Ledger
  | [], key, names => [(key, names.foldl insertName [])]
  | (k, v) :: rest, key, names =>
    if k = key then (k, names.foldl insertName v) :: rest
    else (k, v) :: ledgerUpdate rest key names

/-- `load_sent_beers` (lines 37-45): a missing file (`none`) is caught as
`FileNotFoundError` and yields `{}`; otherwise each JSON array becomes a
set (`set(beers)`, modelled by `List.dedup`). -/
def load_sent_beers : Option Store → Ledger
  | none => []
  | some data => data.map (fun p => (p.1, p.2.dedup))

/-- `save_sent_beers` (lines 48-53): each set is written back as a JSON
array (`list(beers)`); on the list representation this conversion is the
identity. -/
def save_sent_beers (sent_beers : Ledger) : Store :=
  sent_beers

/-- `filter_new_beers` (lines 56-62): keep the beers whose name is not in
the brewery's sent set. -/
def filter_new_beers (beers : List Beer) (sent_beers : Ledger) (brewery_id : String) : List Beer :=
  beers.filter (fun beer => decide (beer.name ∉ ledgerGet sent_beers brewery_id))

/-- The style test of line 195: `any(style in beer['style'].lower() for
style in desired_styles)`. -/
def matchesStyle (desired_styles : List String) (beer : Beer) : Bool :=
  desired_styles.any (fun style => strContains (pyLower beer.style) style)

/-- `soup.select_one('div[class*="name"]')`: the brewery-name container;
`h1` is the text of its first `h1` heading, `none` when no `h1` exists. -/
structure BreweryCard where
  h1 : Option String
deriving DecidableEq, Repr

/-- One `div[class*="beer-item"]` container: the text of its name and style
paragraphs, `none` when `select_one` finds no such element. -/
structure BeerCardHtml where
  name_field : Option String
  style_field : Option String
deriving DecidableEq, Repr

/-- A parsed catalog page as the extraction code of lines 138-163 sees it. -/
structure Page where
  brewery_card : Option BreweryCard
  beer_cards : List BeerCardHtml
deriving DecidableEq, Repr

/-- Lines 146-158: one beer card is kept only when both the name and the
style paragraph are present (`if name_elem and style_elem`); otherwise it is
dropped. -/
def parseCard (brewery_name brewery_id : String) (card : BeerCardHtml) : Option Beer :=
  match card.name_field, card.style_field with
  | some beer_name, some beer_style =>
    some { name := beer_name, style := beer_style,
           brewery := brewery_name, brewery_id := brewery_id }
  | _, _ => none

/-- The extraction section of `get_beers_from_brewery` (lines 138-163).
`brewery_card.select_one('h1').get_text(strip=True)` raises
`AttributeError` when the brewery-name container or its `h1` is missing
(`none` here); the per-card loop drops cards missing a field. -/
def extractBeers (brewery_id : String) (page : Page) : Option (List Beer) :=
  match page.brewery_card with
  | none => none
  | some card =>
    match card.h1 with
    | none => none
    | some brewery_name =>
      some (page.beer_cards.filterMap (parseCard brewery_name brewery_id))

/-- The brewery display name the page carries: the first heading inside the
brewery-name container, when both exist. -/
def pageBreweryName (page : Page) : Option String :=
  match page.brewery_card with
  | none => none
  | some card => card.h1

/-- `get_beers_from_brewery` (lines 121-170): the whole fetch-and-extract
body runs under `try`; any failure (navigation, timeout, or an extraction
exception) is caught at line 165 and yields `[]`. -/
def get_beers_from_brewery (fetchPage : String → Option Page) (brewery_id : String) : List Beer :=
  match fetchPage brewery_id with
  | none => []
  | some page =>
    match extractBeers brewery_id page with
    | none => []
    | some beers => beers

/-- The orchestrator's loop state: the in-memory ledger and the accumulated
unseen beers (`sent_beers` and `new_beers` of `find_matching_beers`). -/
structure RunState where
  sent_beers : Ledger
  new_beers : List Beer
deriving DecidableEq, Repr

/-- One iteration of the per-brewery loop of `find_matching_beers`
(lines 185-206): fetch and extract, keep the style matches, drop already
sent names, extend the run result, and update the ledger when anything new
was found. -/
def processBrewery (fetchPage : String → Option Page) (desired_styles : List String)
    (st : RunState) (brewery_id : String) : RunState :=
  let beers := get_beers_from_brewery fetchPage brewery_id
  let matching_beers := beers.filter (matchesStyle desired_styles)
  let new_brewery_beers := filter_new_beers matching_beers st.sent_beers brewery_id
  { sent_beers :=
      if new_brewery_beers.isEmpty then st.sent_beers
      else ledgerUpdate st.sent_beers brewery_id (new_brewery_beers.map (fun b => b.name)),
    new_beers := st.new_beers ++ new_brewery_beers }

/-- The per-brewery loop of `find_matching_beers` (lines 183-206), starting
from a loaded ledger and an empty result. -/
def find_matching_beers_loop (fetchPage : String → Option Page) (desired_styles : List String)
    (sent0 : Ledger) (brewery_ids : List String) : RunState :=
  brewery_ids.foldl (processBrewery fetchPage desired_styles) { sent_beers := sent0, new_beers := [] }

/-- `find_matching_beers` (lines 173-212): lowercase the configured styles,
load the ledger, run the loop, and save the ledger when the run produced
any new beer. The second component counts the `save_sent_beers` calls; a
failing save (`Except.error`) propagates out uncaught (and `main`, lines
335-337, re-raises it after logging). -/
def find_matching_beers (fetchPage : String → Option Page) (save : Ledger → Except String Unit)
    (brewery_ids : List String) (config_styles : List String) (store : Option Store) :
    Except String (List Beer) × Nat :=
  let desired_styles := config_styles.map pyLower
  let sent_beers := load_sent_beers store
  let st := find_matching_beers_loop fetchPage desired_styles sent_beers brewery_ids
  if st.new_beers.isEmpty then (Except.ok st.new_beers, 0)
  else
    match save (save_sent_beers st.sent_beers) with
    | Except.ok _ => (Except.ok st.new_beers, 1)
    | Except.error e => (Except.error e, 1)

/-- One step of the grouping dict build of `format_beer_list` (lines
217-221): append the beer to the entry keyed by its display name, creating
the entry at the end on first occurrence (Python dict insertion order). -/
def addToGroups (groups : List (String × List Beer)) (beer : Beer) : List (String × List Beer) :=
  match groups with
  | [] => [(beer.brewery, [beer])]
  | (k, v) :: rest =>
    if k = beer.brewery then (k, v ++ [beer]) :: rest
    else (k, v) :: addToGroups rest beer

/-- `beers_by_brewery` of `format_beer_list`: group the beers by their
`brewery` display-name field. -/
def beersByBrewery (beers : List Beer) : List (String × List Beer) :=
  beers.foldl addToGroups []

/-- `format_beer_list` (lines 215-231): per group a header line, a dash
underline of the header's length, one `name | style` line per beer, and a
blank separator line, all joined with newlines. -/
def format_beer_list (beers : List Beer) : String :=
  let groups := beersByBrewery beers
  String.intercalate "\n"
    (groups.flatMap (fun g =>
      [g.1, String.mk (List.replicate g.1.length '-')]
        ++ g.2.map (fun beer => beer.name ++ " | " ++ beer.style) ++ [""]))

/-- Lookup in a grouping list, defaulting to no beers. -/
def groupsGet : List (String × List Beer) → String → List Beer
  | [], _ => []
  | (k, v) :: rest, key => if k = key then v else groupsGet rest key

/-- The first occurrence of each value of a list, in order of first
occurrence, skipping values already seen. -/
def firstOccurrencesFrom (seen : List String) : List String → List String
  | [] => []
  | x :: xs =>
    if x ∈ seen then firstOccurrencesFrom seen xs
    else x :: firstOccurrencesFrom (seen ++ [x]) xs

/-- The values of a list in order of first occurrence, each once. -/
def firstOccurrences (l : List String) : List String :=
  firstOccurrencesFrom [] l

/-- The reference filter for dedup correctness: the extracted beers of one
brewery that match a desired style and whose name is not in the ledger's
set for that brewery. -/
def unseenMatching (fetchPage : String → Option Page) (desired_styles : List String)
    (sent0 : Ledger) (brewery_id : String) : List Beer :=
  (get_beers_from_brewery fetchPage brewery_id).filter
    (fun b => decide (b.name ∉ ledgerGet sent0 brewery_id) && matchesStyle desired_styles b)

/-! ## Helper lemmas about the ledger operations -/

lemma mem_insertName_of_mem (s : List String) (m n : String) (h : n ∈ s) :
    n ∈ insertName s m := by
  unfold insertName
  split
  · exact h
  · exact List.mem_append_left _ h

lemma mem_insertName_self (s : List String) (n : String) : n ∈ insertName s n := by
  unfold insertName
  split
  · assumption
  · simp

lemma mem_foldl_insertName_of_mem (names : List String) (s : List String) (n : String)
    (h : n ∈ s) : n ∈ names.foldl insertName s := by
  induction names generalizing s with
  | nil => exact h
  | cons m ms ih => exact ih _ (mem_insertName_of_mem s m n h)

lemma mem_foldl_insertName_self (names : List String) (s : List String) :
    ∀ n ∈ names, n ∈ names.foldl insertName s := by
  induction names generalizing s with
  | nil => intro n hn; cases hn
  | cons m ms ih =>
    intro n hn
    rcases List.mem_cons.mp hn with h | h
    · subst h
      exact mem_foldl_insertName_of_mem ms _ n (mem_insertName_self s n)
    · exact ih _ n h

lemma foldl_insertName_of_subset (names : List String) (s : List String)
    (h : ∀ n ∈ names, n ∈ s) : names.foldl insertName s = s := by
  induction names with
  | nil => rfl
  | cons m ms ih =>
    have hm : insertName s m = s := by
      unfold insertName
      rw [if_pos (h m (List.mem_cons_self m ms))]
    show ms.foldl insertName (insertName s m) = s
    rw [hm]
    exact ih fun n hn => h n (List.mem_cons_of_mem m hn)

lemma foldl_insertName_idem (names : List String) (s : List String) :
    names.foldl insertName (names.foldl insertName s) = names.foldl insertName s :=
  foldl_insertName_of_subset names _ (mem_foldl_insertName_self names s)

lemma ledgerGet_ledgerUpdate_self (L : Ledger) (key : String) (names : List String) :
    ledgerGet (ledgerUpdate L key names) key = names.foldl insertName (ledgerGet L key) := by
  induction L with
  | nil => simp [ledgerUpdate, ledgerGet]
  | cons p rest ih =>
    obtain ⟨k, v⟩ := p
    by_cases h : k = key
    · simp [ledgerUpdate, ledgerGet, h]
    · simp [ledgerUpdate, ledgerGet, h, ih]

lemma ledgerGet_ledgerUpdate_ne (L : Ledger) (key key' : String) (names : List String)
    (h : key ≠ key') :
    ledgerGet (ledgerUpdate L key names) key' = ledgerGet L key' := by
  induction L with
  | nil => simp [ledgerUpdate, ledgerGet, h]
  | cons p rest ih =>
    obtain ⟨k, v⟩ := p
    by_cases hk : k = key
    · subst hk
      simp [ledgerUpdate, ledgerGet, h]
    · simp only [ledgerUpdate, if_neg hk]
      by_cases hk' : k = key'
      · simp [ledgerGet, hk']
      · simp [ledgerGet, hk', ih]

lemma ledgerGet_map_dedup (store : Store) (key : String) :
    ledgerGet (store.map (fun p => (p.1, p.2.dedup))) key = (ledgerGet store key).dedup := by
  induction store with
  | nil => rfl
  | cons p rest ih =>
    obtain ⟨k, v⟩ := p
    by_cases h : k = key <;> simp [ledgerGet, h, ih]

/-! ## Claims about the matcher and the ledger -/

/-- C2. StyleMatcher semantics: `matches(b, S)` holds iff the lowercased
style text of `b` contains some element of `S` as a substring, and an empty
desired set matches nothing. -/
theorem styleMatcher_semantics (beer : Beer) (desired : List String) :
    (matchesStyle desired beer = true ↔
      ∃ s ∈ desired, s.data <:+: (pyLower beer.style).data)
    ∧ matchesStyle [] beer = false := by
  constructor
  · unfold matchesStyle strContains
    rw [List.any_eq_true]
    constructor
    · rintro ⟨s, hs, h⟩
      exact ⟨s, hs, of_decide_eq_true h⟩
    · rintro ⟨s, hs, h⟩
      exact ⟨s, hs, decide_eq_true h⟩
  · rfl

/-- C9. Missing backing store: a missing `sent_beers.json` is not an error;
`load_sent_beers` yields the empty ledger, under which every beer of every
brewery is considered new. -/
theorem missing_store_yields_empty_ledger :
    load_sent_beers none = [] ∧
    ∀ (beers : List Beer) (brewery_id : String),
      filter_new_beers beers (load_sent_beers none) brewery_id = beers := by
  refine ⟨rfl, fun beers brewery_id => ?_⟩
  show filter_new_beers beers [] brewery_id = beers
  simp [filter_new_beers, ledgerGet]

/-- C8. recordAll idempotence: updating a brewery's sent set twice with the
same names gives exactly the ledger obtained by updating it once. -/
theorem recordAll_idempotent (L : Ledger) (key : String) (names : List String) :
    ledgerUpdate (ledgerUpdate L key names) key names = ledgerUpdate L key names := by
  induction L with
  | nil =>
    show ledgerUpdate [(key, names.foldl insertName [])] key names = _
    unfold ledgerUpdate
    rw [if_pos rfl, foldl_insertName_idem]
  | cons p rest ih =>
    obtain ⟨k, v⟩ := p
    by_cases h : k = key
    · simp only [ledgerUpdate, if_pos h, foldl_insertName_idem]
    · simp only [ledgerUpdate, if_neg h, ih]

/-- C7. Ledger round-trip: loading the backing store, adding nothing, and
saving reproduces a semantically identical store — the same brewery keys in
the same order, each mapped to the same set of beer names. -/
theorem ledger_round_trip (store : Store) :
    (save_sent_beers (load_sent_beers (some store))).map Prod.fst = store.map Prod.fst
    ∧ ∀ (key n : String),
        n ∈ ledgerGet (save_sent_beers (load_sent_beers (some store))) key ↔
          n ∈ ledgerGet store key := by
  constructor
  · simp [save_sent_beers, load_sent_beers, List.map_map, Function.comp]
  · intro key n
    simp [save_sent_beers, load_sent_beers, ledgerGet_map_dedup, List.mem_dedup]

/-! ## Helper lemmas about the orchestrator loop -/

lemma get_beers_fetch_fail (fetchPage : String → Option Page) (brewery_id : String)
    (h : fetchPage brewery_id = none) :
    get_beers_from_brewery fetchPage brewery_id = [] := by
  unfold get_beers_from_brewery
  rw [h]

lemma get_beers_extract_fail (fetchPage : String → Option Page) (brewery_id : String)
    (page : Page) (hf : fetchPage brewery_id = some page)
    (he : extractBeers brewery_id page = none) :
    get_beers_from_brewery fetchPage brewery_id = [] := by
  unfold get_beers_from_brewery
  rw [hf]
  show (match extractBeers brewery_id page with
    | none => []
    | some beers => beers) = []
  rw [he]

lemma processBrewery_no_beers (fetchPage : String → Option Page) (desired_styles : List String)
    (st : RunState) (brewery_id : String)
    (h : get_beers_from_brewery fetchPage brewery_id = []) :
    processBrewery fetchPage desired_styles st brewery_id = st := by
  simp only [processBrewery, h]
  simp [filter_new_beers]

lemma processBrewery_new_beers (fetchPage : String → Option Page) (desired_styles : List String)
    (st : RunState) (brewery_id : String) :
    (processBrewery fetchPage desired_styles st brewery_id).new_beers
      = st.new_beers ++ (get_beers_from_brewery fetchPage brewery_id).filter
          (fun b => decide (b.name ∉ ledgerGet st.sent_beers brewery_id)
            && matchesStyle desired_styles b) := by
  simp only [processBrewery, filter_new_beers, List.filter_filter]

lemma processBrewery_sent_ne (fetchPage : String → Option Page) (desired_styles : List String)
    (st : RunState) (brewery_id key : String) (h : brewery_id ≠ key) :
    ledgerGet (processBrewery fetchPage desired_styles st brewery_id).sent_beers key
      = ledgerGet st.sent_beers key := by
  simp only [processBrewery]
  split
  · rfl
  · exact ledgerGet_ledgerUpdate_ne _ _ _ _ h

lemma processBrewery_sent_mono (fetchPage : String → Option Page) (desired_styles : List String)
    (st : RunState) (brewery_id key n : String) (h : n ∈ ledgerGet st.sent_beers key) :
    n ∈ ledgerGet (processBrewery fetchPage desired_styles st brewery_id).sent_beers key := by
  by_cases hb : brewery_id = key
  · subst hb
    simp only [processBrewery]
    split
    · exact h
    · rw [ledgerGet_ledgerUpdate_self]
      exact mem_foldl_insertName_of_mem _ _ _ h
  · rw [processBrewery_sent_ne fetchPage desired_styles st brewery_id key hb]
    exact h

lemma processBrewery_sent_of_mem_new (fetchPage : String → Option Page)
    (desired_styles : List String) (st : RunState) (brewery_id : String) (b : Beer)
    (hb : b ∈ (get_beers_from_brewery fetchPage brewery_id).filter
          (fun x => decide (x.name ∉ ledgerGet st.sent_beers brewery_id)
            && matchesStyle desired_styles x)) :
    b.name ∈ ledgerGet (processBrewery fetchPage desired_styles st brewery_id).sent_beers
      brewery_id := by
  have hb' : b ∈ filter_new_beers
      ((get_beers_from_brewery fetchPage brewery_id).filter (matchesStyle desired_styles))
      st.sent_beers brewery_id := by
    unfold filter_new_beers
    rw [List.filter_filter]
    exact hb
  have hne : (filter_new_beers
      ((get_beers_from_brewery fetchPage brewery_id).filter (matchesStyle desired_styles))
      st.sent_beers brewery_id).isEmpty ≠ true := by
    intro hc
    rw [List.isEmpty_iff] at hc
    rw [hc] at hb'
    cases hb'
  simp only [processBrewery]
  rw [if_neg hne, ledgerGet_ledgerUpdate_self]
  exact mem_foldl_insertName_self _ _ b.name (List.mem_map_of_mem _ hb')

/-- The run invariant: the in-memory ledger only grows, and every
accumulated unseen beer's name has been added under some key where it was
absent at run start. -/
def RunInv (sent0 : Ledger) (st : RunState) : Prop :=
  (∀ key n, n ∈ ledgerGet sent0 key → n ∈ ledgerGet st.sent_beers key)
  ∧ ∀ b ∈ st.new_beers, ∃ key, b.name ∈ ledgerGet st.sent_beers key
      ∧ b.name ∉ ledgerGet sent0 key

lemma processBrewery_runInv (fetchPage : String → Option Page) (desired_styles : List String)
    (sent0 : Ledger) (st : RunState) (brewery_id : String) (h : RunInv sent0 st) :
    RunInv sent0 (processBrewery fetchPage desired_styles st brewery_id) := by
  obtain ⟨h1, h2⟩ := h
  constructor
  · intro key n hn
    exact processBrewery_sent_mono fetchPage desired_styles st brewery_id key n (h1 key n hn)
  · intro b hb
    rw [processBrewery_new_beers] at hb
    rcases List.mem_append.mp hb with hold | hnew
    · obtain ⟨key, hk1, hk2⟩ := h2 b hold
      exact ⟨key, processBrewery_sent_mono fetchPage desired_styles st brewery_id key _ hk1, hk2⟩
    · have hnot : b.name ∉ ledgerGet st.sent_beers brewery_id := by
        have := (List.mem_filter.mp hnew).2
        exact of_decide_eq_true ((Bool.and_eq_true _ _).mp this).1
      refine ⟨brewery_id,
        processBrewery_sent_of_mem_new fetchPage desired_styles st brewery_id b hnew,
        fun hc => hnot (h1 brewery_id b.name hc)⟩

lemma foldl_runInv (fetchPage : String → Option Page) (desired_styles : List String)
    (sent0 : Ledger) :
    ∀ (ids : List String) (st : RunState), RunInv sent0 st →
      RunInv sent0 (ids.foldl (processBrewery fetchPage desired_styles) st) := by
  intro ids
  induction ids with
  | nil => intro st h; exact h
  | cons k rest ih =>
    intro st h
    exact ih _ (processBrewery_runInv fetchPage desired_styles sent0 st k h)

lemma loop_runInv (fetchPage : String → Option Page) (desired_styles : List String)
    (sent0 : Ledger) (ids : List String) :
    RunInv sent0 (find_matching_beers_loop fetchPage desired_styles sent0 ids) := by
  refine foldl_runInv fetchPage desired_styles sent0 ids _ ⟨fun key n h => h, ?_⟩
  intro b hb
  cases hb

lemma loop_new_beers_flatMap (fetchPage : String → Option Page) (desired_styles : List String)
    (sent0 : Ledger) :
    ∀ (ids : List String) (st : RunState), ids.Nodup →
      (∀ k ∈ ids, ledgerGet st.sent_beers k = ledgerGet sent0 k) →
      (ids.foldl (processBrewery fetchPage desired_styles) st).new_beers
        = st.new_beers ++ ids.flatMap (unseenMatching fetchPage desired_styles sent0) := by
  intro ids
  induction ids with
  | nil => intro st _ _; simp
  | cons k rest ih =>
    intro st hnd hget
    rw [List.foldl_cons, List.flatMap_cons]
    have hk : ledgerGet st.sent_beers k = ledgerGet sent0 k :=
      hget k (List.mem_cons_self k rest)
    have hstep : (processBrewery fetchPage desired_styles st k).new_beers
        = st.new_beers ++ unseenMatching fetchPage desired_styles sent0 k := by
      rw [processBrewery_new_beers, hk]
      rfl
    have hrest : ∀ k' ∈ rest,
        ledgerGet (processBrewery fetchPage desired_styles st k).sent_beers k'
          = ledgerGet sent0 k' := by
      intro k' hk'
      have hne : k ≠ k' := by
        rintro rfl
        exact (List.nodup_cons.mp hnd).1 hk'
      rw [processBrewery_sent_ne fetchPage desired_styles st k k' hne]
      exact hget k' (List.mem_cons_of_mem _ hk')
    rw [ih (processBrewery fetchPage desired_styles st k) (List.nodup_cons.mp hnd).2 hrest,
      hstep, List.append_assoc]

/-! ## Claims about the orchestrator -/

/-- C3. Per-brewery isolation: when fetching one brewery fails, or its
fetched page's extraction raises, that brewery contributes nothing and the
run over the remaining breweries is exactly the run without it — every
subsequent brewery is still processed and the run is not aborted. -/
theorem per_brewery_isolation (fetchPage : String → Option Page) (desired_styles : List String)
    (sent0 : Ledger) (a : String) (pre post : List String)
    (hfail : fetchPage a = none
      ∨ ∃ page, fetchPage a = some page ∧ extractBeers a page = none) :
    find_matching_beers_loop fetchPage desired_styles sent0 (pre ++ a :: post)
      = find_matching_beers_loop fetchPage desired_styles sent0 (pre ++ post) := by
  have hz : get_beers_from_brewery fetchPage a = [] := by
    rcases hfail with h | ⟨page, hf, he⟩
    · exact get_beers_fetch_fail fetchPage a h
    · exact get_beers_extract_fail fetchPage a page hf he
  unfold find_matching_beers_loop
  rw [List.foldl_append, List.foldl_append, List.foldl_cons,
    processBrewery_no_beers fetchPage desired_styles _ a hz]

/-- C1. Dedup correctness: with distinct configured brewery ids and an
extractor that tags each beer with its brewery's id, the run result is
exactly the extracted beers that match a desired style and whose name is
absent from the ledger for their brewery; in particular no name already in
the ledger for its brewery is ever included. -/
theorem dedup_correctness (fetchPage : String → Option Page) (desired_styles : List String)
    (sent0 : Ledger) (ids : List String) (hnodup : ids.Nodup)
    (htag : ∀ k : String, ∀ b ∈ get_beers_from_brewery fetchPage k, b.brewery_id = k) :
    (find_matching_beers_loop fetchPage desired_styles sent0 ids).new_beers
      = ids.flatMap (unseenMatching fetchPage desired_styles sent0)
    ∧ ∀ b ∈ (find_matching_beers_loop fetchPage desired_styles sent0 ids).new_beers,
        b.name ∉ ledgerGet sent0 b.brewery_id := by
  have h1 : (find_matching_beers_loop fetchPage desired_styles sent0 ids).new_beers
      = ids.flatMap (unseenMatching fetchPage desired_styles sent0) := by
    unfold find_matching_beers_loop
    rw [loop_new_beers_flatMap fetchPage desired_styles sent0 ids _ hnodup (fun k _ => rfl)]
    rfl
  refine ⟨h1, ?_⟩
  intro b hb
  rw [h1, List.mem_flatMap] at hb
  obtain ⟨k, hk, hbk⟩ := hb
  unfold unseenMatching at hbk
  rw [List.mem_filter] at hbk
  obtain ⟨hbg, hpred⟩ := hbk
  rw [htag k b hbg]
  exact of_decide_eq_true ((Bool.and_eq_true _ _).mp hpred).1

/-- C5. Persistence failure propagation: when the run produced new beers
and the ledger save fails, the error escapes `find_matching_beers` as the
run's result — it is not swallowed. -/
theorem persist_error_propagates (fetchPage : String → Option Page)
    (brewery_ids config_styles : List String) (store : Option Store) (e : String)
    (hnew : (find_matching_beers_loop fetchPage (config_styles.map pyLower)
      (load_sent_beers store) brewery_ids).new_beers ≠ []) :
    (find_matching_beers fetchPage (fun _ => Except.error e)
      brewery_ids config_styles store).1 = Except.error e := by
  have h1 : (find_matching_beers_loop fetchPage (config_styles.map pyLower)
      (load_sent_beers store) brewery_ids).new_beers.isEmpty = false := by
    rw [List.isEmpty_eq_false]
    exact hnew
  simp [find_matching_beers, h1]

/-- C6. Persistence skip: the save runs at most once per run, only when the
run added at least one absent name to the ledger, and never when the run
produced zero unseen beers. -/
theorem save_skip_policy (fetchPage : String → Option Page) (save : Ledger → Except String Unit)
    (brewery_ids config_styles : List String) (store : Option Store) :
    (find_matching_beers fetchPage save brewery_ids config_styles store).2 ≤ 1
    ∧ ((find_matching_beers fetchPage save brewery_ids config_styles store).2 = 1 →
        ∃ key n, n ∈ ledgerGet (find_matching_beers_loop fetchPage (config_styles.map pyLower)
            (load_sent_beers store) brewery_ids).sent_beers key
          ∧ n ∉ ledgerGet (load_sent_beers store) key)
    ∧ ((find_matching_beers_loop fetchPage (config_styles.map pyLower)
          (load_sent_beers store) brewery_ids).new_beers = [] →
        (find_matching_beers fetchPage save brewery_ids config_styles store).2 = 0) := by
  by_cases hb : (find_matching_beers_loop fetchPage (config_styles.map pyLower)
      (load_sent_beers store) brewery_ids).new_beers.isEmpty = true
  · refine ⟨?_, ?_, ?_⟩
    · simp [find_matching_beers, hb]
    · intro hc
      simp [find_matching_beers, hb] at hc
    · intro _
      simp [find_matching_beers, hb]
  · have hcnt : ∀ r, (find_matching_beers fetchPage save brewery_ids config_styles store) = r →
        r.2 = 1 := by
      intro r hr
      rw [← hr]
      simp only [find_matching_beers, hb, if_false]
      cases save (save_sent_beers (find_matching_beers_loop fetchPage
        (config_styles.map pyLower) (load_sent_beers store) brewery_ids).sent_beers) <;> rfl
    have hone : (find_matching_beers fetchPage save brewery_ids config_styles store).2 = 1 :=
      hcnt _ rfl
    refine ⟨le_of_eq hone, fun _ => ?_, fun hc => ?_⟩
    · have hne : (find_matching_beers_loop fetchPage (config_styles.map pyLower)
          (load_sent_beers store) brewery_ids).new_beers ≠ [] :=
        fun hc => hb (by rw [hc]; rfl)
      obtain ⟨b, hbmem⟩ := List.exists_mem_of_ne_nil _ hne
      obtain ⟨key, hk1, hk2⟩ := (loop_runInv fetchPage (config_styles.map pyLower)
        (load_sent_beers store) brewery_ids).2 b hbmem
      exact ⟨key, b.name, hk1, hk2⟩
    · rw [hc] at hb
      simp at hb

/-! ## Concrete fixtures -/

/-- A rendered catalog page for brewery `X`: display name `Brew X`, two
well-formed beer cards. -/
def exPage : Page :=
  { brewery_card := some { h1 := some "Brew X" },
    beer_cards :=
      [ { name_field := some "IPA Supreme", style_field := some "IPA" },
        { name_field := some "New Stout", style_field := some "Stout" } ] }

/-- A fetcher that renders brewery `X` and fails on every other id. -/
def exFetch : String → Option Page :=
  fun brewery_id => if brewery_id = "X" then some exPage else none

/-- A ledger that already records `IPA Supreme` for brewery `X`. -/
def exLedger : Ledger := [("X", ["IPA Supreme"])]

/-- A fetched page whose brewery-name container is missing entirely, with
one perfectly well-formed beer card. -/
def badPage : Page :=
  { brewery_card := none,
    beer_cards := [ { name_field := some "Good Beer", style_field := some "IPA" } ] }

/-- A fetcher that renders brewery `X`, renders the nameless page for
brewery `noname`, and fails outright on every other id. -/
def exFetchMixed : String → Option Page :=
  fun brewery_id =>
    if brewery_id = "X" then some exPage
    else if brewery_id = "noname" then some badPage
    else none

/-- The beer the example run is expected to report. -/
def newStout : Beer :=
  { name := "New Stout", style := "Stout", brewery := "Brew X", brewery_id := "X" }

/-- A save that always succeeds. -/
def exSaveOk : Ledger → Except String Unit := fun _ => Except.ok ()

lemma exFetch_tagged : ∀ k : String, ∀ b ∈ get_beers_from_brewery exFetch k,
    b.brewery_id = k := by
  intro k b hb
  by_cases hk : k = "X"
  · subst hk
    have e : get_beers_from_brewery exFetch "X"
        = [{ name := "IPA Supreme", style := "IPA", brewery := "Brew X", brewery_id := "X" },
           newStout] := rfl
    rw [e] at hb
    simp [newStout] at hb
    rcases hb with rfl | rfl <;> rfl
  · have e : get_beers_from_brewery exFetch k = [] := by
      simp [get_beers_from_brewery, exFetch, hk]
    rw [e] at hb
    cases hb

/-- Witness for C1 at the spec's example: ledger `{X ↦ {IPA Supreme}}`,
extraction yielding `IPA Supreme` (IPA) and `New Stout` (Stout), desired
styles `ipa` and `stout` — the result is exactly `New Stout`. -/
theorem dedup_correctness_witness :
    (find_matching_beers_loop exFetch ["ipa", "stout"] exLedger ["X"]).new_beers
      = [newStout] :=
  (dedup_correctness exFetch ["ipa", "stout"] exLedger ["X"] (by decide) exFetch_tagged).1.trans
    (by decide)

/-- Witness for C3: brewery `down` fails to fetch and brewery `noname`
fetches a page whose extraction raises; brewery `X` is still processed and
its unseen matching beer is reported. -/
theorem per_brewery_isolation_witness :
    find_matching_beers_loop exFetchMixed ["ipa", "stout"] exLedger ["down", "noname", "X"]
      = find_matching_beers_loop exFetchMixed ["ipa", "stout"] exLedger ["X"]
    ∧ (find_matching_beers_loop exFetchMixed ["ipa", "stout"] exLedger
        ["down", "noname", "X"]).new_beers = [newStout] := by
  have h1 := per_brewery_isolation exFetchMixed ["ipa", "stout"] exLedger "down"
    [] ["noname", "X"] (Or.inl (by decide))
  have h2 := per_brewery_isolation exFetchMixed ["ipa", "stout"] exLedger "noname"
    [] ["X"] (Or.inr ⟨badPage, by decide, rfl⟩)
  exact ⟨h1.trans h2,
    (congrArg RunState.new_beers (h1.trans h2)).trans (by decide)⟩

/-- Witness for C5: a run that found a new beer and whose save fails with
`disk full` ends with that error. -/
theorem persist_error_propagates_witness :
    (find_matching_beers exFetch (fun _ => Except.error "disk full")
      ["X"] ["IPA", "Stout"] (some [("X", [])])).1 = Except.error "disk full" :=
  persist_error_propagates exFetch ["X"] ["IPA", "Stout"] (some [("X", [])])
    "disk full" (by decide)

/-- Witness for C6: the example run saves at most once, and it saved only
because a name absent at run start was added. -/
theorem save_skip_policy_witness :
    (find_matching_beers exFetch exSaveOk ["X"] ["IPA", "Stout"] (some exLedger)).2 ≤ 1
    ∧ ∃ key n, n ∈ ledgerGet (find_matching_beers_loop exFetch (["IPA", "Stout"].map pyLower)
          (load_sent_beers (some exLedger)) ["X"]).sent_beers key
        ∧ n ∉ ledgerGet (load_sent_beers (some exLedger)) key :=
  ⟨(save_skip_policy exFetch exSaveOk ["X"] ["IPA", "Stout"] (some exLedger)).1,
    (save_skip_policy exFetch exSaveOk ["X"] ["IPA", "Stout"] (some exLedger)).2.1 (by decide)⟩

/-! ## Extraction robustness (C4) -/

lemma parseCard_none (brewery_name brewery_id : String) (c : BeerCardHtml)
    (h : c.name_field = none ∨ c.style_field = none) :
    parseCard brewery_name brewery_id c = none := by
  obtain ⟨nf, sf⟩ := c
  rcases h with h | h
  · simp only at h
    subst h
    cases sf <;> rfl
  · simp only at h
    subst h
    cases nf <;> rfl

lemma extractBeers_of_name (brewery_id brewery_name : String) (page : Page)
    (h : page.brewery_card = some { h1 := some brewery_name }) :
    extractBeers brewery_id page
      = some (page.beer_cards.filterMap (parseCard brewery_name brewery_id)) := by
  unfold extractBeers
  rw [h]

lemma extractBeers_of_no_name (brewery_id : String) (page : Page)
    (h : pageBreweryName page = none) :
    extractBeers brewery_id page = none := by
  obtain ⟨bc, cards⟩ := page
  cases bc with
  | none => rfl
  | some card =>
    obtain ⟨h1f⟩ := card
    cases h1f with
    | none => rfl
    | some n => simp [pageBreweryName] at h

/-- Counterexample to C4: on a page with no brewery display name the
extraction does not produce placeholder-named records for its parseable
beer cards — it raises (modelled `none`), and the enclosing per-brewery
handler turns the whole page into zero beers. -/
theorem extractor_robustness_counterexample :
    badPage.beer_cards.filterMap (parseCard "" "X") ≠ []
    ∧ extractBeers "X" badPage = none
    ∧ get_beers_from_brewery (fun _ => some badPage) "X" = [] :=
  ⟨by decide, rfl, rfl⟩

/-- C4 as amended: a beer card missing its name or style field is dropped
individually, leaving the rest of the batch intact; but a page without a
brewery display name makes the whole extraction raise (`none`), and the
per-brewery handler then yields zero beers for that page instead of
records with a placeholder brewery name. -/
theorem extractor_robustness_amended :
    (∀ (brewery_id brewery_name : String) (cards1 cards2 : List BeerCardHtml)
        (c : BeerCardHtml), (c.name_field = none ∨ c.style_field = none) →
        extractBeers brewery_id
            { brewery_card := some { h1 := some brewery_name },
              beer_cards := cards1 ++ c :: cards2 }
          = extractBeers brewery_id
              { brewery_card := some { h1 := some brewery_name },
                beer_cards := cards1 ++ cards2 })
    ∧ (∀ (brewery_id : String) (page : Page), pageBreweryName page = none →
        extractBeers brewery_id page = none)
    ∧ (∀ (fetchPage : String → Option Page) (brewery_id : String) (page : Page),
        fetchPage brewery_id = some page → pageBreweryName page = none →
        get_beers_from_brewery fetchPage brewery_id = []) := by
  refine ⟨?_, extractBeers_of_no_name, ?_⟩
  · intro brewery_id brewery_name cards1 cards2 c hc
    rw [extractBeers_of_name brewery_id brewery_name _ rfl,
      extractBeers_of_name brewery_id brewery_name _ rfl]
    show some (List.filterMap _ (cards1 ++ c :: cards2)) = some (List.filterMap _ (cards1 ++ cards2))
    rw [List.filterMap_append, List.filterMap_append, List.filterMap_cons,
      parseCard_none brewery_name brewery_id c hc]
  · intro fetchPage brewery_id page hf hn
    unfold get_beers_from_brewery
    rw [hf]
    show (match extractBeers brewery_id page with
      | none => []
      | some beers => beers) = []
    rw [extractBeers_of_no_name brewery_id page hn]

/-- Witness for the amended C4: a card without a style is dropped while the
well-formed card before it survives, and a fetched page without a brewery
display name yields zero beers. -/
theorem extractor_robustness_amended_witness :
    extractBeers "X"
        { brewery_card := some { h1 := some "Brew X" },
          beer_cards := [ { name_field := some "Good Beer", style_field := some "IPA" },
                          { name_field := some "No Style", style_field := none } ] }
      = extractBeers "X"
          { brewery_card := some { h1 := some "Brew X" },
            beer_cards := [ { name_field := some "Good Beer", style_field := some "IPA" } ] }
    ∧ get_beers_from_brewery (fun _ => some badPage) "X" = [] :=
  ⟨extractor_robustness_amended.1 "X" "Brew X"
      [{ name_field := some "Good Beer", style_field := some "IPA" }] []
      { name_field := some "No Style", style_field := none } (Or.inr rfl),
    extractor_robustness_amended.2.2 (fun _ => some badPage) "X" badPage rfl rfl⟩

/-! ## Notification grouping (C10) -/

lemma map_fst_addToGroups (gs : List (String × List Beer)) (b : Beer) :
    (addToGroups gs b).map Prod.fst
      = if b.brewery ∈ gs.map Prod.fst then gs.map Prod.fst
        else gs.map Prod.fst ++ [b.brewery] := by
  induction gs with
  | nil => simp [addToGroups]
  | cons p rest ih =>
    obtain ⟨k, v⟩ := p
    by_cases h : k = b.brewery
    · subst h
      simp [addToGroups]
    · rw [show addToGroups ((k, v) :: rest) b = (k, v) :: addToGroups rest b by
        simp [addToGroups, h]]
      rw [List.map_cons, ih, List.map_cons]
      by_cases hm : b.brewery ∈ rest.map Prod.fst
      · rw [if_pos hm, if_pos (List.mem_cons_of_mem k hm)]
      · rw [if_neg hm, if_neg (by
          intro hc
          rcases List.mem_cons.mp hc with hc | hc
          · exact h hc.symm
          · exact hm hc)]
        rfl

lemma groupsGet_addToGroups (gs : List (String × List Beer)) (b : Beer) (key : String) :
    groupsGet (addToGroups gs b) key
      = if b.brewery = key then groupsGet gs key ++ [b] else groupsGet gs key := by
  induction gs with
  | nil =>
    by_cases h : b.brewery = key <;> simp [addToGroups, groupsGet, h]
  | cons p rest ih =>
    obtain ⟨k, v⟩ := p
    by_cases hk : k = b.brewery
    · rw [show addToGroups ((k, v) :: rest) b = (k, v ++ [b]) :: rest by
        simp [addToGroups, hk]]
      by_cases h2 : k = key
      · rw [show groupsGet ((k, v ++ [b]) :: rest) key = v ++ [b] by simp [groupsGet, h2],
          show groupsGet ((k, v) :: rest) key = v by simp [groupsGet, h2],
          if_pos (hk ▸ h2)]
      · have hbk : ¬ b.brewery = key := fun hc => h2 (hk.trans hc)
        rw [show groupsGet ((k, v ++ [b]) :: rest) key = groupsGet rest key by
            simp [groupsGet, h2],
          show groupsGet ((k, v) :: rest) key = groupsGet rest key by simp [groupsGet, h2],
          if_neg hbk]
    · rw [show addToGroups ((k, v) :: rest) b = (k, v) :: addToGroups rest b by
        simp [addToGroups, hk]]
      by_cases h2 : k = key
      · have hbk : ¬ b.brewery = key := fun hc => hk (h2.trans hc.symm)
        rw [show groupsGet ((k, v) :: addToGroups rest b) key = v by simp [groupsGet, h2],
          show groupsGet ((k, v) :: rest) key = v by simp [groupsGet, h2],
          if_neg hbk]
      · rw [show groupsGet ((k, v) :: addToGroups rest b) key
            = groupsGet (addToGroups rest b) key by simp [groupsGet, h2],
          show groupsGet ((k, v) :: rest) key = groupsGet rest key by simp [groupsGet, h2],
          ih]

lemma foldl_groups_keys : ∀ (beers : List Beer) (gs : List (String × List Beer)),
    (beers.foldl addToGroups gs).map Prod.fst
      = gs.map Prod.fst
          ++ firstOccurrencesFrom (gs.map Prod.fst) (beers.map (fun b => b.brewery)) := by
  intro beers
  induction beers with
  | nil => intro gs; simp [firstOccurrencesFrom]
  | cons b bs ih =>
    intro gs
    rw [List.foldl_cons, ih (addToGroups gs b), map_fst_addToGroups, List.map_cons]
    by_cases hm : b.brewery ∈ gs.map Prod.fst
    · rw [if_pos hm]
      rw [show firstOccurrencesFrom (gs.map Prod.fst) (b.brewery :: bs.map (fun x => x.brewery))
          = firstOccurrencesFrom (gs.map Prod.fst) (bs.map (fun x => x.brewery)) by
        simp [firstOccurrencesFrom, hm]]
    · rw [if_neg hm]
      rw [show firstOccurrencesFrom (gs.map Prod.fst) (b.brewery :: bs.map (fun x => x.brewery))
          = b.brewery :: firstOccurrencesFrom (gs.map Prod.fst ++ [b.brewery])
              (bs.map (fun x => x.brewery)) by
        simp [firstOccurrencesFrom, hm]]
      rw [List.append_assoc]
      rfl

lemma foldl_groupsGet : ∀ (beers : List Beer) (gs : List (String × List Beer)) (key : String),
    groupsGet (beers.foldl addToGroups gs) key
      = groupsGet gs key ++ beers.filter (fun b => decide (b.brewery = key)) := by
  intro beers
  induction beers with
  | nil => intro gs key; simp
  | cons b bs ih =>
    intro gs key
    rw [List.foldl_cons, ih (addToGroups gs b) key, groupsGet_addToGroups]
    by_cases h : b.brewery = key
    · rw [if_pos h, List.filter_cons_of_pos (by simpa using h), List.append_assoc]
      rfl
    · rw [if_neg h, List.filter_cons_of_neg (by simpa using h)]

/-- Re-tag a beer with a fresh stable brewery identifier, keeping its name,
style, and display name. -/
def retagBeer (f : Beer → String) (b : Beer) : Beer :=
  { b with brewery_id := f b }

lemma addToGroups_map_retag (f : Beer → String) (gs : List (String × List Beer)) (b : Beer) :
    addToGroups (gs.map (fun g => (g.1, g.2.map (retagBeer f)))) (retagBeer f b)
      = (addToGroups gs b).map (fun g => (g.1, g.2.map (retagBeer f))) := by
  induction gs with
  | nil => rfl
  | cons p rest ih =>
    obtain ⟨k, v⟩ := p
    by_cases h : k = b.brewery
    · simp [addToGroups, retagBeer, h]
    · simp only [List.map_cons]
      rw [show addToGroups ((k, v) :: rest) b = (k, v) :: addToGroups rest b by
        simp [addToGroups, h]]
      rw [show addToGroups ((k, v.map (retagBeer f)) :: rest.map
            (fun g => (g.1, g.2.map (retagBeer f)))) (retagBeer f b)
          = (k, v.map (retagBeer f)) :: addToGroups (rest.map
              (fun g => (g.1, g.2.map (retagBeer f)))) (retagBeer f b) by
        simp [addToGroups, retagBeer, h]]
      rw [ih]
      rfl

lemma foldl_addToGroups_map_retag (f : Beer → String) :
    ∀ (beers : List Beer) (gs : List (String × List Beer)),
      (beers.map (retagBeer f)).foldl addToGroups
          (gs.map (fun g => (g.1, g.2.map (retagBeer f))))
        = (beers.foldl addToGroups gs).map (fun g => (g.1, g.2.map (retagBeer f))) := by
  intro beers
  induction beers with
  | nil => intro gs; rfl
  | cons b bs ih =>
    intro gs
    rw [List.map_cons, List.foldl_cons, List.foldl_cons, addToGroups_map_retag f gs b]
    exact ih (addToGroups gs b)

lemma beersByBrewery_retag (f : Beer → String) (beers : List Beer) :
    beersByBrewery (beers.map (retagBeer f))
      = (beersByBrewery beers).map (fun g => (g.1, g.2.map (retagBeer f))) := by
  unfold beersByBrewery
  simpa using foldl_addToGroups_map_retag f beers []

lemma flatMap_render_retag (f : Beer → String) (gs : List (String × List Beer)) :
    (gs.map (fun g => (g.1, g.2.map (retagBeer f)))).flatMap
        (fun g => [g.1, String.mk (List.replicate g.1.length '-')]
          ++ g.2.map (fun beer => beer.name ++ " | " ++ beer.style) ++ [""])
      = gs.flatMap (fun g => [g.1, String.mk (List.replicate g.1.length '-')]
          ++ g.2.map (fun beer => beer.name ++ " | " ++ beer.style) ++ [""]) := by
  induction gs with
  | nil => rfl
  | cons g rest ih =>
    rw [List.map_cons, List.flatMap_cons, List.flatMap_cons, ih]
    congr 2
    rw [List.map_map]
    rfl

/-- C10. Notification grouping: `format_beer_list` groups by the `brewery`
display-name field — group keys are the display names in first-occurrence
order, each group holds exactly the beers carrying that display name, and
the rendered text ignores `brewery_id` entirely (re-tagging every record's
stable identifier leaves the output unchanged). -/
theorem format_groups_by_display_name (beers : List Beer) :
    (beersByBrewery beers).map Prod.fst
        = firstOccurrences (beers.map (fun b => b.brewery))
    ∧ (∀ key, groupsGet (beersByBrewery beers) key
        = beers.filter (fun b => decide (b.brewery = key)))
    ∧ ∀ f : Beer → String,
        format_beer_list (beers.map (retagBeer f)) = format_beer_list beers := by
  refine ⟨?_, ?_, ?_⟩
  · unfold beersByBrewery firstOccurrences
    simpa using foldl_groups_keys beers []
  · intro key
    unfold beersByBrewery
    simpa [groupsGet] using foldl_groupsGet beers [] key
  · intro f
    simp only [format_beer_list]
    rw [beersByBrewery_retag f beers, flatMap_render_retag f (beersByBrewery beers)]

end BeerFinder
